import Mathlib

/-!
Verification of the FFCS course-recommendation core: a shallow embedding of
the pool generator (src/services/course_pool.py), the credit-limit enforcer
(src/services/llm_service.py, _enforce_credit_limits), the cascading
completion simulator (_simulate_cascading_completion) and the graduation
feasibility analyzer (src/services/validator.py), together with theorems
checking the specification claims against these definitions.

Python floats carrying credit values are modelled as exact rationals; Python
dicts keyed by course code are modelled by a last-entry-wins lookup, and
Python sets by membership in lists (only membership is ever consulted).
-/

namespace EdwRec

/-- Course record, from src/models/course.py (dataclass Course). -/
structure Course where
  course_code : String
  name : String
  credits : ℚ
  type : String
  prerequisites : List String
  year_level : ℕ
  difficulty : ℕ
  slots : List String
deriving DecidableEq, Repr

/-- One course outcome inside a semester, from src/models/student.py. -/
structure CourseResult where
  course_code : String
  grade : String
  credits : ℚ
  status : String
deriving DecidableEq, Repr

/-- One semester of results, from src/models/student.py. -/
structure SemesterResult where
  semester : ℕ
  courses : List CourseResult
deriving DecidableEq, Repr

/-- Student record, from src/models/student.py (dataclass StudentProfile). -/
structure StudentProfile where
  student_id : String
  name : String
  current_semester : ℕ
  current_year : ℕ
  interests : List String
  workload_preference : String
  total_credits_earned : ℚ
  gpa : ℚ
  semester_results : List SemesterResult
deriving DecidableEq, Repr

/-- The dict comprehension course_map in the source: last entry with a given
code wins, as in a Python dict built left to right. -/
def courseMap (avail : List Course) (code : String) : Option Course :=
  avail.foldl (fun acc c => if c.course_code = code then some c else acc) none

/-- All course results of a student, flattening the semester history. -/
def allCourseResults (s : StudentProfile) : List CourseResult :=
  (s.semester_results.map SemesterResult.courses).flatten

/-- StudentProfile.get_passed_courses: codes of every result with status
passed, in history order. -/
def getPassedCourses (s : StudentProfile) : List String :=
  ((allCourseResults s).filter (fun r => r.status == "passed")).map CourseResult.course_code

/-- StudentProfile.get_failed_courses returns list(failed_set - passed_set);
the iteration order of a Python set is unspecified, and every caller only
tests membership, so the currently-failed set is modelled as a membership
predicate: failed somewhere and never passed. -/
def currentlyFailed (s : StudentProfile) (code : String) : Bool :=
  ((allCourseResults s).any (fun r => r.course_code == code && r.status == "failed"))
    && !((allCourseResults s).any (fun r => r.course_code == code && r.status == "passed"))

/-- CoursePoolGenerator.generate_pool from src/services/course_pool.py: one
pass over the catalog, each course kept or skipped by the first matching
rule (passed, deselected, selected, currently failed, year gate). -/
def generate_pool (all_courses : List Course) (student : StudentProfile)
    (selected_courses deselected_courses : List String) : List Course :=
  all_courses.filter fun course =>
    if (getPassedCourses student).contains course.course_code then false
    else if deselected_courses.contains course.course_code then false
    else if selected_courses.contains course.course_code then true
    else if currentlyFailed student course.course_code then true
    else decide (course.year_level ≤ student.current_year)

/-- The breakdown dict of a recommendation as touched by the enforcer:
mandatory and electives are read with a [] default, project_courses only when
the key is present (hence Option). -/
structure Breakdown where
  mandatory : List String
  electives : List String
  project_courses : Option (List String)
deriving DecidableEq, Repr

/-- The fields of a recommendation dict that _enforce_credit_limits reads or
writes; all other keys (rank, reasoning, ...) pass through untouched. -/
structure Recommendation where
  courses : List String
  total_credits : ℚ
  breakdown : Option Breakdown
deriving DecidableEq, Repr

/-- The three input filters of _enforce_credit_limits (llm_service.py lines
474-478): drop Proj1 outside semester 7, Proj2 outside semester 8, and any
code absent from the catalog map. The current_semester argument is always
supplied on the call paths the spec describes, so it is a plain number here. -/
def stripCodes (codes : List String) (avail : List Course) (current_semester : ℕ) : List String :=
  let codes1 := codes.filter fun c => !(c == "Proj1" && current_semester != 7)
  let codes2 := codes1.filter fun c => !(c == "Proj2" && current_semester != 8)
  codes2.filter fun c => (courseMap avail c).isSome

/-- Total of the authoritative credit values of a list of courses. -/
def sumCredits (l : List Course) : ℚ := (l.map Course.credits).sum

/-- Stable insertion: the new element goes in front of the first position
whose element it may precede, so elements comparing equal keep their
original relative order, as Python's stable sorted does. -/
def insertSortedBy (le : Course → Course → Bool) (c : Course) : List Course → List Course
  | [] => [c]
  | d :: ds => if le c d then c :: d :: ds else d :: insertSortedBy le c ds

/-- Stable insertion sort used to model Python's sorted. -/
def sortBy (le : Course → Course → Bool) : List Course → List Course
  | [] => []
  | c :: cs => insertSortedBy le c (sortBy le cs)

/-- sorted(selected, key=lambda x: x.credits, reverse=True). -/
def sortByCreditsDesc : List Course → List Course :=
  sortBy fun c d => decide (c.credits ≥ d.credits)

/-- Body of the inner trim loop (llm_service.py lines 490-495): walk the
sorted snapshot; stop as soon as the total fits; remove each course of the
drop type from the working selection (list.remove drops the first equal
element) and subtract its credits. -/
def trimGo (drop_type : String) (max_credits : ℚ) :
    List Course → List Course → ℚ → List Course × ℚ
  | [], sel, tot => (sel, tot)
  | c :: rest, sel, tot =>
    if tot ≤ max_credits then (sel, tot)
    else if c.type == drop_type then
      trimGo drop_type max_credits rest (sel.erase c) (tot - c.credits)
    else trimGo drop_type max_credits rest sel tot

/-- One drop-type iteration of the trim step: the snapshot is re-sorted from
the current selection. -/
def trimPass (drop_type : String) (max_credits : ℚ) (st : List Course × ℚ) :
    List Course × ℚ :=
  trimGo drop_type max_credits (sortByCreditsDesc st.1) st.1 st.2

/-- Membership test of the mandatory type family ['DC', 'FC', 'DLES']. -/
def isMandatoryType (t : String) : Bool := t == "DC" || t == "FC" || t == "DLES"

/-- Sort key of the padding candidates (llm_service.py line 504): mandatory
types first, then ascending difficulty. -/
def padKey (c : Course) : ℕ × ℕ := (if isMandatoryType c.type then 0 else 1, c.difficulty)

/-- Lexicographic comparison of padding keys. -/
def padLe (c d : Course) : Bool :=
  decide ((padKey c).1 < (padKey d).1 ∨
    ((padKey c).1 = (padKey d).1 ∧ (padKey c).2 ≤ (padKey d).2))

/-- sorted(candidates, key=lambda x: (0 if mandatory else 1, x.difficulty)). -/
def sortByPadKey : List Course → List Course :=
  sortBy padLe

/-- Body of the pad loop (llm_service.py lines 506-511): stop once the total
reaches the minimum; append a candidate only when it does not push the total
over the maximum. -/
def padGo (min_credits max_credits : ℚ) :
    List Course → List Course → ℚ → List Course × ℚ
  | [], sel, tot => (sel, tot)
  | c :: rest, sel, tot =>
    if tot ≥ min_credits then (sel, tot)
    else if tot + c.credits ≤ max_credits then
      padGo min_credits max_credits rest (sel ++ [c]) (tot + c.credits)
    else padGo min_credits max_credits rest sel tot

/-- Selection and total right after the strip and the authoritative credit
recomputation (steps at llm_service.py lines 471-484). -/
def strippedState (rec : Recommendation) (avail : List Course) (sem : ℕ) :
    List Course × ℚ :=
  let selected := (stripCodes rec.courses avail sem).filterMap (courseMap avail)
  (selected, sumCredits selected)

/-- Selection and total after the over-max trim step (llm_service.py lines
486-497): the OE pass then the DE pass, run only when the total exceeds the
maximum. -/
def trimmedState (rec : Recommendation) (avail : List Course) (max_credits : ℚ)
    (sem : ℕ) : List Course × ℚ :=
  let st := strippedState rec avail sem
  if st.2 > max_credits then trimPass "DE" max_credits (trimPass "OE" max_credits st)
  else st

/-- Selection and total after the under-min pad step (llm_service.py lines
499-513), run only when the post-trim total is below the minimum. -/
def paddedState (rec : Recommendation) (avail : List Course)
    (min_credits max_credits : ℚ) (sem : ℕ) : List Course × ℚ :=
  let st2 := trimmedState rec avail max_credits sem
  if st2.2 < min_credits then
    let already := st2.1.map Course.course_code
    let candidates := sortByPadKey (avail.filter fun c => !(already.contains c.course_code))
    padGo min_credits max_credits candidates st2.1 st2.2
  else st2

/-- Breakdown resync (llm_service.py lines 519-531): each category list is
filtered to the codes still present in the final course list. -/
def syncBreakdown (final_codes : List String) (b : Breakdown) : Breakdown :=
  { mandatory := b.mandatory.filter fun c => final_codes.contains c,
    electives := b.electives.filter fun c => final_codes.contains c,
    project_courses := b.project_courses.map fun l => l.filter fun c => final_codes.contains c }

/-- Course-code list left in the rec dict when the bounds gate is reached:
the padded selection's codes when padding ran, else the trimmed selection's
codes when trimming ran, else the stripped code list (the successive
in-place writes of the Python dict collapse to the last one). -/
def finalCourses (rec : Recommendation) (avail : List Course)
    (min_credits max_credits : ℚ) (sem : ℕ) : List String :=
  if (trimmedState rec avail max_credits sem).2 < min_credits then
    (paddedState rec avail min_credits max_credits sem).1.map Course.course_code
  else if (strippedState rec avail sem).2 > max_credits then
    (trimmedState rec avail max_credits sem).1.map Course.course_code
  else stripCodes rec.courses avail sem

/-- _enforce_credit_limits (llm_service.py lines 464-533): strip, recompute,
trim, pad, then the bounds gate, which returns None when the final total is
outside [min_credits, max_credits], and otherwise the rec with the final
course list, the final total and the resynced breakdown. -/
def enforce_credit_limits (rec : Recommendation) (available_courses : List Course)
    (min_credits max_credits : ℚ) (current_semester : ℕ) : Option Recommendation :=
  let st3 := paddedState rec available_courses min_credits max_credits current_semester
  let final_courses := finalCourses rec available_courses min_credits max_credits current_semester
  if min_credits ≤ st3.2 ∧ st3.2 ≤ max_credits then
    some { rec with
      courses := final_courses,
      total_credits := st3.2,
      breakdown := rec.breakdown.map (syncBreakdown final_courses) }
  else none

/-- Credit value a code carries in the catalog (0 when absent; the absent
case never occurs for codes that survive the strip). -/
def catalogCredit (avail : List Course) (code : String) : ℚ :=
  ((courseMap avail code).map Course.credits).getD 0

/-- Sum of the catalog credit values of a list of codes. -/
def sumCatalogCredits (avail : List Course) (codes : List String) : ℚ :=
  (codes.map (catalogCredit avail)).sum

/-- The synthetic passed results built by _simulate_cascading_completion
(llm_service.py lines 212-215): one result per assumed code found in the
catalog, grade A, status passed. -/
def newCourseResults (all_courses : List Course) (completed : List String) : List CourseResult :=
  completed.filterMap fun code =>
    (courseMap all_courses code).map fun c =>
      { course_code := code, grade := "A", credits := c.credits, status := "passed" }

/-- _simulate_cascading_completion (llm_service.py lines 200-227). The deep
copy followed by field writes is modelled as building a new profile value;
the synthetic semester is appended only when at least one assumed code is in
the catalog, tagged with the ORIGINAL current_semester; target_semester is
always supplied on the call paths the spec describes. -/
def simulate_cascading_completion (student : StudentProfile) (completed_courses : List String)
    (all_courses : List Course) (target_semester : ℕ) : StudentProfile :=
  let new_credits : ℚ :=
    ((completed_courses.filterMap (courseMap all_courses)).map Course.credits).sum
  let new_courses := newCourseResults all_courses completed_courses
  { student with
    total_credits_earned := student.total_credits_earned + new_credits,
    semester_results :=
      if new_courses.isEmpty then student.semester_results
      else student.semester_results ++ [⟨student.current_semester, new_courses⟩],
    current_semester := target_semester,
    current_year := (target_semester + 1) / 2 }

/-- Warning tags of the graduation feasibility analyzer; the formatted
message strings of the source are abstracted to their kind. -/
inductive GradWarning where
  | atRisk
  | tight
  | cannotGraduate
deriving DecidableEq, Repr

/-- Return value of Validator.analyze_graduation_feasibility: the feasible
flag, the warnings, and the details dict. -/
structure FeasibilityResult where
  feasible : Bool
  warnings : List GradWarning
  remaining_mandatory_credits : ℚ
  remaining_semesters : ℤ
  avg_credits_per_sem_needed : ℚ
  completed_mandatory_credits : ℚ
  selected_mandatory_credits : ℚ
deriving DecidableEq, Repr

/-- The passed-credit term of the analyzer (validator.py lines 126-130):
credits of EVERY passed course result, of any type — a CourseResult stores
no course type, and the all_courses parameter that could resolve types is
unused by the source method. -/
def passedCreditsSum (student : StudentProfile) : ℚ :=
  (((allCourseResults student).filter (fun r => r.status == "passed")).map
    CourseResult.credits).sum

/-- The selection term of the analyzer (validator.py lines 132-135): credits
of the selected mandatory-type courses not already passed. -/
def selectedMandatoryCredits (student : StudentProfile) (current_selection : List Course) : ℚ :=
  ((current_selection.filter (fun c =>
      isMandatoryType c.type
        && !((getPassedCourses student).contains c.course_code))).map Course.credits).sum

/-- The remaining-mandatory estimate of the analyzer (validator.py lines
137-139): 120 less the passed-credit term and the selection term, floored
at 0. -/
def remainingMandatoryCredits (student : StudentProfile)
    (current_selection : List Course) : ℚ :=
  max 0 (120 - passedCreditsSum student - selectedMandatoryCredits student current_selection)

/-- Validator.analyze_graduation_feasibility (validator.py lines 112-176). -/
def analyze_graduation_feasibility (_min_credits max_credits : ℚ)
    (student : StudentProfile) (current_selection : List Course) : FeasibilityResult :=
  let completed_mandatory_credits := passedCreditsSum student
  let selected_mandatory_credits := selectedMandatoryCredits student current_selection
  let remaining_mandatory := remainingMandatoryCredits student current_selection
  let remaining_sems : ℤ := 8 - (student.current_semester : ℤ)
  if 0 < remaining_sems then
    let credits_per_sem := remaining_mandatory / (remaining_sems : ℚ)
    if credits_per_sem > max_credits then
      ⟨false, [.atRisk], remaining_mandatory, remaining_sems, credits_per_sem,
        completed_mandatory_credits, selected_mandatory_credits⟩
    else if credits_per_sem > 0.8 * max_credits then
      ⟨true, [.tight], remaining_mandatory, remaining_sems, credits_per_sem,
        completed_mandatory_credits, selected_mandatory_credits⟩
    else
      ⟨true, [], remaining_mandatory, remaining_sems, credits_per_sem,
        completed_mandatory_credits, selected_mandatory_credits⟩
  else
    ⟨decide (remaining_mandatory = 0),
      if remaining_mandatory = 0 then [] else [.cannotGraduate],
      remaining_mandatory, remaining_sems, 0,
      completed_mandatory_credits, selected_mandatory_credits⟩

/-- Remaining-mandatory formula following the words of the claim, for
comparison with what the code computes: the already-passed credit term keeps
only passed results whose course is mandatory-TYPE in the catalog, and the
selection term counts mandatory-type selected courses. -/
def claimRemainingMandatory (catalog : List Course) (student : StudentProfile)
    (current_selection : List Course) : ℚ :=
  let passedMandatory : ℚ :=
    (((allCourseResults student).filter (fun r =>
        r.status == "passed" &&
          ((courseMap catalog r.course_code).map (fun c => isMandatoryType c.type)).getD
            false)).map CourseResult.credits).sum
  let selectedMandatory : ℚ :=
    ((current_selection.filter (fun c => isMandatoryType c.type)).map Course.credits).sum
  max 0 (120 - passedMandatory - selectedMandatory)

/-! Concrete fixture data used by the scenario theorems, the counterexamples
and the witnesses. -/

/-- Scenario course X: 3 credits, discipline core, year 2. -/
def courseX : Course := ⟨"X", "Course X", 3, "DC", [], 2, 3, []⟩

/-- Scenario course Y: 4 credits, open elective, year 2. -/
def courseY : Course := ⟨"Y", "Course Y", 4, "OE", [], 2, 3, []⟩

/-- A 2-credit mandatory course used to exercise the padding step. -/
def courseA2 : Course := ⟨"A", "Course A", 2, "DC", [], 2, 1, []⟩

/-- The pre-project course: project type, 3 credits. -/
def courseProj1 : Course := ⟨"Proj1", "Project 1", 3, "PR", [], 4, 4, []⟩

/-- An open elective whose passed result exercises the feasibility
analyzer's passed-credit sum. -/
def courseE1 : Course := ⟨"E1", "Elective 1", 3, "OE", [], 1, 2, []⟩

/-- A year-3 mandatory course recorded as failed by a year-1 student. -/
def courseF1 : Course := ⟨"F1", "Course F1", 3, "DC", [], 3, 2, []⟩

/-- Semester-3 student who passed only the elective E1. -/
def studentE1 : StudentProfile :=
  ⟨"s1", "Stu One", 3, 2, [], "MEDIUM", 3, 7, [⟨1, [⟨"E1", "B", 3, "passed"⟩]⟩]⟩

/-- Fresh semester-1 student with an empty history. -/
def studentFresh : StudentProfile :=
  ⟨"s2", "Stu Two", 1, 1, [], "LOW", 0, 8, []⟩

/-- Semester-1, year-1 student whose history records the year-3 course F1 as
failed and nothing as passed. -/
def studentFailedF1 : StudentProfile :=
  ⟨"s3", "Stu Three", 1, 1, [], "MEDIUM", 0, 6, [⟨1, [⟨"F1", "F", 3, "failed"⟩]⟩]⟩

/-! Helper lemmas about the course map and the student queries. -/

theorem courseMap_eq_some {avail : List Course} {code : String} {c : Course}
    (h : courseMap avail code = some c) : c ∈ avail ∧ c.course_code = code := by
  unfold courseMap at h
  induction avail using List.reverseRecOn with
  | nil => simp at h
  | append_singleton xs x ih =>
    rw [List.foldl_append, List.foldl_cons, List.foldl_nil] at h
    by_cases hx : x.course_code = code
    · simp [hx] at h
      subst h
      exact ⟨List.mem_append_right _ (List.mem_singleton.mpr rfl), hx⟩
    · simp [hx] at h
      rcases ih h with ⟨hmem, hcode⟩
      exact ⟨List.mem_append_left _ hmem, hcode⟩

theorem courseMap_isSome_of_mem {avail : List Course} {c : Course} (h : c ∈ avail) :
    (courseMap avail c.course_code).isSome := by
  unfold courseMap
  induction avail using List.reverseRecOn with
  | nil => simp at h
  | append_singleton xs x ih =>
    rw [List.foldl_append, List.foldl_cons, List.foldl_nil]
    rcases List.mem_append.mp h with hxs | hx
    · by_cases hc : x.course_code = c.course_code
      · simp [hc]
      · simp [hc]
        exact ih hxs
    · rw [List.mem_singleton.mp hx]
      simp

/-- With globally unique catalog codes, looking a catalog member up by its
own code gives back that very member. -/
theorem courseMap_self {avail : List Course} (hnd : (avail.map Course.course_code).Nodup)
    {c : Course} (h : c ∈ avail) : courseMap avail c.course_code = some c := by
  rcases Option.isSome_iff_exists.mp (courseMap_isSome_of_mem h) with ⟨d, hd⟩
  rcases courseMap_eq_some hd with ⟨hdm, hdc⟩
  have : d = c := List.inj_on_of_nodup_map hnd hdm h hdc
  rw [hd, this]

theorem courseMap_isSome_iff {avail : List Course} {code : String} :
    (courseMap avail code).isSome = true ↔ code ∈ avail.map Course.course_code := by
  constructor
  · intro h
    rcases Option.isSome_iff_exists.mp h with ⟨c, hc⟩
    rcases courseMap_eq_some hc with ⟨hm, he⟩
    exact he ▸ List.mem_map_of_mem Course.course_code hm
  · intro h
    rcases List.mem_map.mp h with ⟨c, hm, he⟩
    exact he ▸ courseMap_isSome_of_mem hm

/-- A currently-failed code was never recorded as passed, so it is not in the
passed list. -/
theorem currentlyFailed_not_passed {s : StudentProfile} {code : String}
    (h : currentlyFailed s code = true) :
    (getPassedCourses s).contains code = false := by
  unfold currentlyFailed at h
  rw [Bool.and_eq_true] at h
  have h2 := h.2
  rw [Bool.not_eq_true'] at h2
  by_contra hcon
  rw [Bool.not_eq_false] at hcon
  rw [List.contains_eq_any_beq] at hcon
  unfold getPassedCourses at hcon
  rw [List.any_eq_true] at hcon
  rcases hcon with ⟨x, hx, hbeq⟩
  rcases List.mem_map.mp hx with ⟨r, hr, hrc⟩
  rw [List.mem_filter] at hr
  have : (allCourseResults s).any (fun r => r.course_code == code && r.status == "passed") = true := by
    rw [List.any_eq_true]
    refine ⟨r, hr.1, ?_⟩
    rw [Bool.and_eq_true]
    constructor
    · rw [beq_iff_eq, hrc]
      exact (beq_iff_eq.mp hbeq).symm
    · exact hr.2
  rw [this] at h2
  cases h2

/-! Claim theorems for the pool generator. -/

/-- C10: the pool returned by generate_pool is a sublist of the catalog list:
its courses keep the relative order of all_courses and each catalog entry
occurs at most once in the output. -/
theorem generate_pool_sublist_of_catalog (all_courses : List Course)
    (student : StudentProfile) (sel desel : List String) :
    (generate_pool all_courses student sel desel).Sublist all_courses :=
  List.filter_sublist all_courses

/-- C5: a catalog course whose code is currently failed (failed in some
semester, never passed) and not manually deselected appears in the pool,
whatever its year_level. -/
theorem failed_course_in_pool (all_courses : List Course) (student : StudentProfile)
    (sel desel : List String) (c : Course) (hc : c ∈ all_courses)
    (hf : currentlyFailed student c.course_code = true)
    (hd : desel.contains c.course_code = false) :
    c ∈ generate_pool all_courses student sel desel := by
  unfold generate_pool
  rw [List.mem_filter]
  refine ⟨hc, ?_⟩
  rw [currentlyFailed_not_passed hf, hd, hf]
  by_cases hs : sel.contains c.course_code
  · simp [hs]
  · simp [hs]

/-- Witness for C5: the year-3 failed course F1 is in the year-1 student's
pool even though its year level exceeds the current year. -/
theorem failed_course_in_pool_witness :
    courseF1 ∈ generate_pool [courseF1] studentFailedF1 [] [] := by
  apply failed_course_in_pool [courseF1] studentFailedF1 [] [] courseF1
  · exact List.mem_singleton.mpr rfl
  · decide
  · decide

/-! Claim theorems for the cascading simulator. -/

theorem filterMap_courseMap_credits (avail : List Course) (codes : List String) :
    ((codes.filterMap (courseMap avail)).map Course.credits).sum
      = ((codes.filter (fun code => (avail.map Course.course_code).contains code)).map
          (catalogCredit avail)).sum := by
  induction codes with
  | nil => rfl
  | cons code rest ih =>
    rw [List.filterMap_cons, List.filter_cons]
    have hbe : ((avail.map Course.course_code).contains code)
        = (courseMap avail code).isSome := by
      have h1 : ((avail.map Course.course_code).contains code = true)
          ↔ ((courseMap avail code).isSome = true) := by
        rw [courseMap_isSome_iff, List.elem_iff]
      revert h1
      cases (avail.map Course.course_code).contains code <;>
        cases (courseMap avail code).isSome <;> simp
    cases hm : courseMap avail code with
    | none =>
      rw [hm] at hbe
      simp only [Option.isSome_none] at hbe
      rw [hbe]
      simpa using ih
    | some c =>
      rw [hm] at hbe
      simp only [Option.isSome_some] at hbe
      rw [hbe]
      simp only [if_pos trivial, List.map_cons, List.sum_cons, ih]
      have : catalogCredit avail code = c.credits := by
        unfold catalogCredit
        rw [hm]
        rfl
      rw [this]

/-- C7: the simulated profile earns the original credits plus the catalog
credits of exactly the assumed-completed codes present in the catalog; codes
absent from the catalog contribute nothing. -/
theorem simulate_total_credits (student : StudentProfile) (completed : List String)
    (all_courses : List Course) (target : ℕ) (hnd : completed.Nodup) :
    (simulate_cascading_completion student completed all_courses target).total_credits_earned
      = student.total_credits_earned
        + ((completed.filter (fun code => (all_courses.map Course.course_code).contains code)).map
            (catalogCredit all_courses)).sum := by
  unfold simulate_cascading_completion
  simp only
  rw [filterMap_courseMap_credits]

/-- Witness for C7: completing the duplicate-free list [X, Q] against a
catalog holding only X adds exactly the 3 credits of X. -/
theorem simulate_total_credits_witness :
    (simulate_cascading_completion studentFresh ["X", "Q"] [courseX] 2).total_credits_earned
      = studentFresh.total_credits_earned
        + (((["X", "Q"].filter
              (fun code => ([courseX].map Course.course_code).contains code))).map
            (catalogCredit [courseX])).sum :=
  simulate_total_credits studentFresh ["X", "Q"] [courseX] 2 (by decide)

theorem newCourseResults_all_passed (all_courses : List Course) (completed : List String) :
    (newCourseResults all_courses completed).all
      (fun r => r.grade == "A" && r.status == "passed") = true := by
  rw [List.all_eq_true]
  intro r hr
  rcases List.mem_filterMap.mp hr with ⟨code, _hcode, hsome⟩
  rcases Option.map_eq_some'.mp hsome with ⟨c, _hc, hr2⟩
  rw [← hr2]
  rfl

/-- C8: the simulator is a pure function of its input (the deep copy never
aliases the original record, whose value is untouched); the untouched fields
of the copy equal the original's, the appended synthetic semester is tagged
with the ORIGINAL current_semester and holds only grade-A passed results,
and the returned profile carries the target semester and its derived year
ceil(target/2) = (target + 1) / 2. -/
theorem simulate_frame_and_fields (student : StudentProfile) (completed : List String)
    (all_courses : List Course) (target : ℕ) :
    (simulate_cascading_completion student completed all_courses target).current_semester
        = target
      ∧ (simulate_cascading_completion student completed all_courses target).current_year
        = (target + 1) / 2
      ∧ (simulate_cascading_completion student completed all_courses target).student_id
        = student.student_id
      ∧ (simulate_cascading_completion student completed all_courses target).name
        = student.name
      ∧ (simulate_cascading_completion student completed all_courses target).interests
        = student.interests
      ∧ (simulate_cascading_completion student completed all_courses target).workload_preference
        = student.workload_preference
      ∧ (simulate_cascading_completion student completed all_courses target).gpa
        = student.gpa
      ∧ (simulate_cascading_completion student completed all_courses target).semester_results
        = (if (newCourseResults all_courses completed).isEmpty then student.semester_results
           else student.semester_results
             ++ [⟨student.current_semester, newCourseResults all_courses completed⟩])
      ∧ (newCourseResults all_courses completed).all
          (fun r => r.grade == "A" && r.status == "passed") = true := by
  refine ⟨rfl, rfl, rfl, rfl, rfl, rfl, rfl, rfl, ?_⟩
  exact newCourseResults_all_passed all_courses completed

/-! Scenario A and the concrete counterexamples. -/

/-- C3 (Scenario A): with catalog X (3 cr, DC, year 2) and Y (4 cr, OE,
year 2), bounds [5, 6] and proposal [X, Y] (total 7), the trim removes Y and
keeps X (post-trim state ([X], 3)), padding cannot repair the total of 3
(post-pad state is unchanged), and the enforcer discards the
recommendation. -/
theorem scenarioA_trim_then_discard :
    trimmedState ⟨["X", "Y"], 7, none⟩ [courseX, courseY] 6 3 = ([courseX], 3)
      ∧ paddedState ⟨["X", "Y"], 7, none⟩ [courseX, courseY] 5 6 3 = ([courseX], 3)
      ∧ enforce_credit_limits ⟨["X", "Y"], 7, none⟩ [courseX, courseY] 5 6 3 = none := by
  refine ⟨?_, ?_, ?_⟩ <;>
    norm_num +decide [enforce_credit_limits, finalCourses, paddedState, trimmedState, strippedState,
      stripCodes, sumCredits, courseMap, sortByCreditsDesc, sortByPadKey, sortBy, insertSortedBy, trimPass,
      trimGo, padLe, padKey, isMandatoryType, padGo,
      courseX, courseY, List.filter, List.filterMap, List.foldl, List.erase]

/-- Counterexample to C2: in semester 5 the padding step adds the project
course Proj1 back into the selection, so the non-null result contains Proj1
although the current semester is not 7. -/
theorem enforce_pads_gated_project :
    (enforce_credit_limits ⟨["A"], 2, none⟩ [courseA2, courseProj1] 4 6 5).map
        Recommendation.courses = some ["A", "Proj1"]
      ∧ (5 : ℕ) ≠ 7 := by
  constructor
  · norm_num +decide [enforce_credit_limits, finalCourses, paddedState, trimmedState, strippedState,
      stripCodes, sumCredits, courseMap, sortByCreditsDesc, sortByPadKey, sortBy, insertSortedBy, trimPass,
      trimGo, padLe, padKey, isMandatoryType, padGo,
      courseA2, courseProj1, List.filter, List.filterMap, List.foldl, List.erase]
  · decide

/-- Counterexample to C6: the enforcer never deduplicates the proposal, so
the duplicated proposal [X, X] (6 credits, inside the bounds [5, 7]) comes
back verbatim with a duplicate course code. -/
theorem enforce_keeps_duplicates :
    (enforce_credit_limits ⟨["X", "X"], 6, none⟩ [courseX] 5 7 3).map
        Recommendation.courses = some ["X", "X"]
      ∧ ¬ (["X", "X"] : List String).Nodup := by
  constructor
  · norm_num +decide [enforce_credit_limits, finalCourses, paddedState, trimmedState, strippedState,
      stripCodes, sumCredits, courseMap, sortByCreditsDesc, sortByPadKey, sortBy, insertSortedBy, trimPass,
      trimGo, padLe, padKey, isMandatoryType, padGo,
      courseX, List.filter, List.filterMap, List.foldl, List.erase]
  · decide

/-- Counterexample to C9: the analyzer credits EVERY passed course's credits
against the 120 mandatory estimate (a CourseResult has no type), so for a
student who passed only the 3-credit open elective E1 it reports 117
remaining mandatory credits, while the claim's formula (crediting only
passed mandatory-TYPE credits) gives 120. -/
theorem feasibility_counts_all_passed_credits :
    (analyze_graduation_feasibility 16 27 studentE1 []).remaining_mandatory_credits = 117
      ∧ claimRemainingMandatory [courseE1] studentE1 [] = 120
      ∧ (117 : ℚ) ≠ 120 := by
  refine ⟨?_, ?_, by norm_num⟩
  · norm_num +decide [analyze_graduation_feasibility, remainingMandatoryCredits,
      passedCreditsSum, selectedMandatoryCredits, allCourseResults, getPassedCourses,
      isMandatoryType, studentE1, List.filter, List.flatten]
  · norm_num +decide [claimRemainingMandatory, allCourseResults, getPassedCourses,
      isMandatoryType, courseMap, studentE1, courseE1, List.filter, List.foldl, List.flatten]

/-! Lemma bank for the credit-limit enforcer pipeline. -/

theorem insertSortedBy_perm (le : Course → Course → Bool) (c : Course) (l : List Course) :
    (insertSortedBy le c l).Perm (c :: l) := by
  induction l with
  | nil => exact List.Perm.refl _
  | cons d ds ih =>
    unfold insertSortedBy
    by_cases h : le c d
    · rw [if_pos h]
    · rw [if_neg h]
      exact (ih.cons d).trans (List.Perm.swap c d ds)

theorem sortBy_perm (le : Course → Course → Bool) (l : List Course) : (sortBy le l).Perm l := by
  induction l with
  | nil => exact List.Perm.refl _
  | cons c cs ih =>
    unfold sortBy
    exact (insertSortedBy_perm le c (sortBy le cs)).trans (ih.cons c)

theorem sumCredits_erase {l : List Course} {c : Course} (h : c ∈ l) :
    sumCredits l = c.credits + sumCredits (l.erase c) := by
  unfold sumCredits
  have hp : l.Perm (c :: l.erase c) := List.perm_cons_erase h
  rw [(hp.map Course.credits).sum_eq, List.map_cons, List.sum_cons]

theorem sumCredits_append_singleton (l : List Course) (c : Course) :
    sumCredits (l ++ [c]) = sumCredits l + c.credits := by
  unfold sumCredits
  rw [List.map_append, List.sum_append, List.map_singleton, List.sum_singleton]

theorem trimGo_fst_sublist (dt : String) (mx : ℚ) :
    ∀ (snap sel : List Course) (tot : ℚ), (trimGo dt mx snap sel tot).1.Sublist sel := by
  intro snap
  induction snap with
  | nil => intro sel tot; exact List.Sublist.refl sel
  | cons c rest ih =>
    intro sel tot
    unfold trimGo
    by_cases h1 : tot ≤ mx
    · rw [if_pos h1]
    · rw [if_neg h1]
      by_cases h2 : c.type == dt
      · rw [if_pos h2]
        exact (ih (sel.erase c) (tot - c.credits)).trans (List.erase_sublist c sel)
      · rw [if_neg h2]
        exact ih sel tot

theorem trimGo_snd_sum (dt : String) (mx : ℚ) :
    ∀ (snap sel : List Course) (tot : ℚ), tot = sumCredits sel →
      (snap : Multiset Course) ≤ (sel : Multiset Course) →
      (trimGo dt mx snap sel tot).2 = sumCredits (trimGo dt mx snap sel tot).1 := by
  intro snap
  induction snap with
  | nil => intro sel tot htot _; exact htot
  | cons c rest ih =>
    intro sel tot htot hle
    unfold trimGo
    by_cases h1 : tot ≤ mx
    · rw [if_pos h1]; exact htot
    · rw [if_neg h1]
      by_cases h2 : c.type == dt
      · rw [if_pos h2]
        have hc : c ∈ sel := by
          have : c ∈ ((c :: rest : List Course) : Multiset Course) := by
            simp
          exact Multiset.mem_coe.mp (Multiset.mem_of_le hle this)
        have hrest : ((rest : List Course) : Multiset Course)
            ≤ ((sel.erase c : List Course) : Multiset Course) := by
          have h3 := Multiset.erase_le_erase c hle
          rw [Multiset.coe_erase] at h3
          simpa using h3
        apply ih (sel.erase c) (tot - c.credits) _ hrest
        rw [htot, sumCredits_erase hc]
        ring
      · rw [if_neg h2]
        apply ih sel tot htot
        exact le_trans (Multiset.le_cons_self _ c) hle

theorem trimPass_fst_sublist (dt : String) (mx : ℚ) (st : List Course × ℚ) :
    (trimPass dt mx st).1.Sublist st.1 :=
  trimGo_fst_sublist dt mx (sortByCreditsDesc st.1) st.1 st.2

theorem trimPass_snd_sum (dt : String) (mx : ℚ) (st : List Course × ℚ)
    (h : st.2 = sumCredits st.1) :
    (trimPass dt mx st).2 = sumCredits (trimPass dt mx st).1 := by
  apply trimGo_snd_sum dt mx (sortByCreditsDesc st.1) st.1 st.2 h
  exact le_of_eq (Multiset.coe_eq_coe.mpr (sortBy_perm _ st.1))

theorem padGo_snd_sum (mn mx : ℚ) :
    ∀ (cand sel : List Course) (tot : ℚ), tot = sumCredits sel →
      (padGo mn mx cand sel tot).2 = sumCredits (padGo mn mx cand sel tot).1 := by
  intro cand
  induction cand with
  | nil => intro sel tot htot; exact htot
  | cons c rest ih =>
    intro sel tot htot
    unfold padGo
    by_cases h1 : tot ≥ mn
    · rw [if_pos h1]; exact htot
    · rw [if_neg h1]
      by_cases h2 : tot + c.credits ≤ mx
      · rw [if_pos h2]
        apply ih (sel ++ [c]) (tot + c.credits)
        rw [htot, sumCredits_append_singleton]
      · rw [if_neg h2]
        exact ih sel tot htot

theorem padGo_fst_mem (mn mx : ℚ) :
    ∀ (cand sel : List Course) (tot : ℚ) (x : Course),
      x ∈ (padGo mn mx cand sel tot).1 → x ∈ sel ∨ x ∈ cand := by
  intro cand
  induction cand with
  | nil => intro sel tot x hx; exact Or.inl hx
  | cons c rest ih =>
    intro sel tot x hx
    unfold padGo at hx
    by_cases h1 : tot ≥ mn
    · rw [if_pos h1] at hx; exact Or.inl hx
    · rw [if_neg h1] at hx
      by_cases h2 : tot + c.credits ≤ mx
      · rw [if_pos h2] at hx
        rcases ih (sel ++ [c]) (tot + c.credits) x hx with hs | hr
        · rcases List.mem_append.mp hs with hs2 | hc
          · exact Or.inl hs2
          · rw [List.mem_singleton.mp hc]
            exact Or.inr (List.mem_cons_self c rest)
        · exact Or.inr (List.mem_cons_of_mem c hr)
      · rw [if_neg h2] at hx
        rcases ih sel tot x hx with hs | hr
        · exact Or.inl hs
        · exact Or.inr (List.mem_cons_of_mem c hr)

theorem padGo_fst_nodup_codes (mn mx : ℚ) :
    ∀ (cand sel : List Course) (tot : ℚ),
      (sel.map Course.course_code).Nodup →
      (cand.map Course.course_code).Nodup →
      (∀ c ∈ cand, c.course_code ∉ sel.map Course.course_code) →
      ((padGo mn mx cand sel tot).1.map Course.course_code).Nodup := by
  intro cand
  induction cand with
  | nil => intro sel tot hsel _ _; exact hsel
  | cons c rest ih =>
    intro sel tot hsel hcand hdisj
    unfold padGo
    by_cases h1 : tot ≥ mn
    · rw [if_pos h1]; exact hsel
    · rw [if_neg h1]
      have hcr : (rest.map Course.course_code).Nodup := (List.nodup_cons.mp hcand).2
      have hcnot : c.course_code ∉ rest.map Course.course_code :=
        (List.nodup_cons.mp hcand).1
      by_cases h2 : tot + c.credits ≤ mx
      · rw [if_pos h2]
        apply ih (sel ++ [c]) (tot + c.credits)
        · rw [List.map_append, List.map_singleton]
          rw [List.nodup_append]
          exact ⟨hsel, List.nodup_singleton _, by
            intro a ha hb
            rw [List.mem_singleton.mp hb] at ha
            exact hdisj c (List.mem_cons_self c rest) ha⟩
        · exact hcr
        · intro d hd
          rw [List.map_append, List.map_singleton]
          intro hmem
          rcases List.mem_append.mp hmem with hin | hone
          · exact hdisj d (List.mem_cons_of_mem c hd) hin
          · have : d.course_code = c.course_code := List.mem_singleton.mp hone
            exact hcnot (this ▸ List.mem_map_of_mem Course.course_code hd)
      · rw [if_neg h2]
        exact ih sel tot hsel hcr (fun d hd => hdisj d (List.mem_cons_of_mem c hd))

theorem stripCodes_isSome {codes : List String} {avail : List Course} {sem : ℕ} :
    ∀ code ∈ stripCodes codes avail sem, (courseMap avail code).isSome = true := by
  intro code hc
  simp only [stripCodes] at hc
  exact (List.mem_filter.mp hc).2

theorem stripCodes_proj1 {codes : List String} {avail : List Course} {sem : ℕ}
    (h : "Proj1" ∈ stripCodes codes avail sem) : sem = 7 := by
  simp only [stripCodes] at h
  have h1 := List.mem_of_mem_filter (List.mem_of_mem_filter h)
  have h2 := (List.mem_filter.mp h1).2
  simp only [beq_self_eq_true, Bool.true_and, Bool.not_eq_true', bne_eq_false_iff_eq] at h2
  exact h2

theorem stripCodes_proj2 {codes : List String} {avail : List Course} {sem : ℕ}
    (h : "Proj2" ∈ stripCodes codes avail sem) : sem = 8 := by
  simp only [stripCodes] at h
  have h2 := (List.mem_filter.mp (List.mem_of_mem_filter h)).2
  simp only [beq_self_eq_true, Bool.true_and, Bool.not_eq_true', bne_eq_false_iff_eq] at h2
  exact h2

theorem stripCodes_nodup {codes : List String} {avail : List Course} {sem : ℕ}
    (h : codes.Nodup) : (stripCodes codes avail sem).Nodup := by
  simp only [stripCodes]
  exact ((h.filter _).filter _).filter _

theorem map_code_filterMap {avail : List Course} :
    ∀ {codes : List String}, (∀ code ∈ codes, (courseMap avail code).isSome = true) →
      (codes.filterMap (courseMap avail)).map Course.course_code = codes := by
  intro codes
  induction codes with
  | nil => intro _; rfl
  | cons code rest ih =>
    intro h
    rcases Option.isSome_iff_exists.mp (h code (List.mem_cons_self _ _)) with ⟨c, hc⟩
    simp only [List.filterMap_cons, hc, List.map_cons]
    rw [(courseMap_eq_some hc).2, ih (fun x hx => h x (List.mem_cons_of_mem _ hx))]

theorem sumCredits_filterMap {avail : List Course} :
    ∀ {codes : List String}, (∀ code ∈ codes, (courseMap avail code).isSome = true) →
      sumCredits (codes.filterMap (courseMap avail)) = sumCatalogCredits avail codes := by
  intro codes
  induction codes with
  | nil => intro _; rfl
  | cons code rest ih =>
    intro h
    rcases Option.isSome_iff_exists.mp (h code (List.mem_cons_self _ _)) with ⟨c, hc⟩
    simp only [List.filterMap_cons, hc, sumCatalogCredits, List.map_cons, List.sum_cons]
    have h1 : catalogCredit avail code = c.credits := by
      unfold catalogCredit
      rw [hc]
      rfl
    have h2 := ih (fun x hx => h x (List.mem_cons_of_mem _ hx))
    simp only [sumCatalogCredits] at h2
    simp only [sumCredits, List.map_cons, List.sum_cons] at *
    rw [h1, h2]

theorem strippedState_snd_sum (rec : Recommendation) (avail : List Course) (sem : ℕ) :
    (strippedState rec avail sem).2 = sumCredits (strippedState rec avail sem).1 := rfl

theorem strippedState_map_code (rec : Recommendation) (avail : List Course) (sem : ℕ) :
    (strippedState rec avail sem).1.map Course.course_code = stripCodes rec.courses avail sem :=
  map_code_filterMap stripCodes_isSome

theorem strippedState_mem_avail {rec : Recommendation} {avail : List Course} {sem : ℕ}
    {c : Course} (h : c ∈ (strippedState rec avail sem).1) : c ∈ avail := by
  simp only [strippedState] at h
  rcases List.mem_filterMap.mp h with ⟨code, _, hc⟩
  exact (courseMap_eq_some hc).1

theorem trimmedState_eq_of_gt {rec : Recommendation} {avail : List Course} {mx : ℚ} {sem : ℕ}
    (h : (strippedState rec avail sem).2 > mx) :
    trimmedState rec avail mx sem = trimPass "DE" mx (trimPass "OE" mx (strippedState rec avail sem)) := by
  simp only [trimmedState]
  rw [if_pos h]

theorem trimmedState_eq_of_not_gt {rec : Recommendation} {avail : List Course} {mx : ℚ}
    {sem : ℕ} (h : ¬ (strippedState rec avail sem).2 > mx) :
    trimmedState rec avail mx sem = strippedState rec avail sem := by
  simp only [trimmedState]
  rw [if_neg h]

theorem trimmedState_fst_sublist (rec : Recommendation) (avail : List Course) (mx : ℚ)
    (sem : ℕ) : (trimmedState rec avail mx sem).1.Sublist (strippedState rec avail sem).1 := by
  by_cases h : (strippedState rec avail sem).2 > mx
  · rw [trimmedState_eq_of_gt h]
    exact (trimPass_fst_sublist _ _ _).trans (trimPass_fst_sublist _ _ _)
  · rw [trimmedState_eq_of_not_gt h]

theorem trimmedState_snd_sum (rec : Recommendation) (avail : List Course) (mx : ℚ) (sem : ℕ) :
    (trimmedState rec avail mx sem).2 = sumCredits (trimmedState rec avail mx sem).1 := by
  by_cases h : (strippedState rec avail sem).2 > mx
  · rw [trimmedState_eq_of_gt h]
    exact trimPass_snd_sum _ _ _ (trimPass_snd_sum _ _ _ (strippedState_snd_sum rec avail sem))
  · rw [trimmedState_eq_of_not_gt h]
    exact strippedState_snd_sum rec avail sem

theorem trimmedState_mem_avail {rec : Recommendation} {avail : List Course} {mx : ℚ} {sem : ℕ}
    {c : Course} (h : c ∈ (trimmedState rec avail mx sem).1) : c ∈ avail :=
  strippedState_mem_avail ((trimmedState_fst_sublist rec avail mx sem).mem h)

theorem paddedState_eq_of_lt {rec : Recommendation} {avail : List Course} {mn mx : ℚ} {sem : ℕ}
    (h : (trimmedState rec avail mx sem).2 < mn) :
    paddedState rec avail mn mx sem
      = padGo mn mx
          (sortByPadKey (avail.filter fun c =>
            !(((trimmedState rec avail mx sem).1.map Course.course_code).contains c.course_code)))
          (trimmedState rec avail mx sem).1 (trimmedState rec avail mx sem).2 := by
  simp only [paddedState]
  rw [if_pos h]

theorem paddedState_eq_of_not_lt {rec : Recommendation} {avail : List Course} {mn mx : ℚ}
    {sem : ℕ} (h : ¬ (trimmedState rec avail mx sem).2 < mn) :
    paddedState rec avail mn mx sem = trimmedState rec avail mx sem := by
  simp only [paddedState]
  rw [if_neg h]

theorem paddedState_snd_sum (rec : Recommendation) (avail : List Course) (mn mx : ℚ)
    (sem : ℕ) :
    (paddedState rec avail mn mx sem).2 = sumCredits (paddedState rec avail mn mx sem).1 := by
  by_cases h : (trimmedState rec avail mx sem).2 < mn
  · rw [paddedState_eq_of_lt h]
    exact padGo_snd_sum _ _ _ _ _ (trimmedState_snd_sum rec avail mx sem)
  · rw [paddedState_eq_of_not_lt h]
    exact trimmedState_snd_sum rec avail mx sem

theorem paddedState_mem_avail {rec : Recommendation} {avail : List Course} {mn mx : ℚ}
    {sem : ℕ} {c : Course} (h : c ∈ (paddedState rec avail mn mx sem).1) : c ∈ avail := by
  by_cases hp : (trimmedState rec avail mx sem).2 < mn
  · rw [paddedState_eq_of_lt hp] at h
    rcases padGo_fst_mem _ _ _ _ _ _ h with hs | hc
    · exact trimmedState_mem_avail hs
    · have := (sortBy_perm _ _).mem_iff.mp hc
      exact List.mem_of_mem_filter this
  · rw [paddedState_eq_of_not_lt hp] at h
    exact trimmedState_mem_avail h

theorem finalCourses_eq_padded_map (rec : Recommendation) (avail : List Course)
    (mn mx : ℚ) (sem : ℕ) :
    finalCourses rec avail mn mx sem
      = (paddedState rec avail mn mx sem).1.map Course.course_code := by
  unfold finalCourses
  by_cases h1 : (trimmedState rec avail mx sem).2 < mn
  · rw [if_pos h1]
  · rw [if_neg h1, paddedState_eq_of_not_lt h1]
    by_cases h2 : (strippedState rec avail sem).2 > mx
    · rw [if_pos h2]
    · rw [if_neg h2, trimmedState_eq_of_not_gt h2, strippedState_map_code]

theorem enforce_eq_some {rec : Recommendation} {avail : List Course} {mn mx : ℚ} {sem : ℕ}
    {R : Recommendation} (h : enforce_credit_limits rec avail mn mx sem = some R) :
    (mn ≤ (paddedState rec avail mn mx sem).2 ∧ (paddedState rec avail mn mx sem).2 ≤ mx)
      ∧ R = { rec with
          courses := finalCourses rec avail mn mx sem,
          total_credits := (paddedState rec avail mn mx sem).2,
          breakdown := rec.breakdown.map (syncBreakdown (finalCourses rec avail mn mx sem)) } := by
  simp only [enforce_credit_limits] at h
  split_ifs at h with hb
  exact ⟨hb, (Option.some.inj h).symm⟩

theorem sumCatalogCredits_map_code {avail : List Course}
    (hnd : (avail.map Course.course_code).Nodup) :
    ∀ {l : List Course}, (∀ c ∈ l, c ∈ avail) →
      sumCatalogCredits avail (l.map Course.course_code) = sumCredits l := by
  intro l
  induction l with
  | nil => intro _; rfl
  | cons c cs ih =>
    intro hmem
    have h1 : catalogCredit avail c.course_code = c.credits := by
      unfold catalogCredit
      rw [courseMap_self hnd (hmem c (List.mem_cons_self _ _))]
      rfl
    have h2 := ih (fun x hx => hmem x (List.mem_cons_of_mem _ hx))
    simp only [sumCatalogCredits, sumCredits, List.map_cons, List.sum_cons] at *
    rw [h1, h2]

/-- C1: a recommendation surviving _enforce_credit_limits has its total
inside [min_credits, max_credits] and that total equals the sum of the
catalog credit values of its course list (for a catalog with unique codes,
the data-model invariant); the function otherwise returns None, which the
Option result type exhibits. -/
theorem enforce_bounds_and_total (rec : Recommendation) (avail : List Course)
    (mn mx : ℚ) (sem : ℕ) (R : Recommendation)
    (hnd : (avail.map Course.course_code).Nodup) (hmm : mn ≤ mx)
    (h : enforce_credit_limits rec avail mn mx sem = some R) :
    mn ≤ R.total_credits ∧ R.total_credits ≤ mx
      ∧ R.total_credits = sumCatalogCredits avail R.courses := by
  rcases enforce_eq_some h with ⟨⟨h1, h2⟩, hR⟩
  subst hR
  refine ⟨h1, h2, ?_⟩
  show (paddedState rec avail mn mx sem).2
    = sumCatalogCredits avail (finalCourses rec avail mn mx sem)
  rw [finalCourses_eq_padded_map, paddedState_snd_sum,
    sumCatalogCredits_map_code hnd (fun c hc => paddedState_mem_avail hc)]

/-- Witness for C1 at a concrete surviving recommendation. -/
theorem enforce_bounds_and_total_witness :
    (2 : ℚ) ≤ (Recommendation.mk ["X"] 3 none).total_credits
      ∧ (Recommendation.mk ["X"] 3 none).total_credits ≤ 4
      ∧ (Recommendation.mk ["X"] 3 none).total_credits
        = sumCatalogCredits [courseX] (Recommendation.mk ["X"] 3 none).courses := by
  apply enforce_bounds_and_total ⟨["X"], 3, none⟩ [courseX] 2 4 1 ⟨["X"], 3, none⟩
  · decide
  · norm_num
  · norm_num +decide [enforce_credit_limits, finalCourses, paddedState, trimmedState,
      strippedState, stripCodes, sumCredits, courseMap, sortByCreditsDesc, sortByPadKey,
      sortBy, insertSortedBy, trimPass, trimGo, padLe, padKey, isMandatoryType, padGo,
      courseX, List.filter, List.filterMap, List.foldl, List.erase]

/-- C2 amended: every code of a surviving recommendation is a catalog code;
and when the padding step is not triggered (the post-trim total already
reaches min_credits), the survivor contains Proj1 only in semester 7 and
Proj2 only in semester 8. (As stated, C2 fails: padding can re-add a gated
project course, see the counterexample.) -/
theorem enforce_catalog_and_gating (rec : Recommendation) (avail : List Course)
    (mn mx : ℚ) (sem : ℕ) (R : Recommendation)
    (h : enforce_credit_limits rec avail mn mx sem = some R) :
    R.courses.all (fun code => (avail.map Course.course_code).contains code) = true
      ∧ (¬ (trimmedState rec avail mx sem).2 < mn →
          ("Proj1" ∈ R.courses → sem = 7) ∧ ("Proj2" ∈ R.courses → sem = 8)) := by
  rcases enforce_eq_some h with ⟨-, hR⟩
  subst hR
  constructor
  · rw [List.all_eq_true]
    intro code hcode
    have hcode2 : code ∈ finalCourses rec avail mn mx sem := hcode
    rw [finalCourses_eq_padded_map] at hcode2
    rcases List.mem_map.mp hcode2 with ⟨c, hc, hce⟩
    have : code ∈ avail.map Course.course_code :=
      hce ▸ List.mem_map_of_mem Course.course_code (paddedState_mem_avail hc)
    rw [List.elem_iff]
    exact this
  · intro hpad
    have hsub : ((trimmedState rec avail mx sem).1.map Course.course_code).Sublist
        (stripCodes rec.courses avail sem) := by
      have h1 := (trimmedState_fst_sublist rec avail mx sem).map Course.course_code
      rw [strippedState_map_code] at h1
      exact h1
    constructor
    · intro hmem
      have hmem2 : "Proj1" ∈ finalCourses rec avail mn mx sem := hmem
      rw [finalCourses_eq_padded_map, paddedState_eq_of_not_lt hpad] at hmem2
      exact stripCodes_proj1 (hsub.subset hmem2)
    · intro hmem
      have hmem2 : "Proj2" ∈ finalCourses rec avail mn mx sem := hmem
      rw [finalCourses_eq_padded_map, paddedState_eq_of_not_lt hpad] at hmem2
      exact stripCodes_proj2 (hsub.subset hmem2)

/-- Witness for the amended C2 at a concrete surviving recommendation. -/
theorem enforce_catalog_and_gating_witness :
    (Recommendation.mk ["X"] 3 none).courses.all
        (fun code => ([courseX].map Course.course_code).contains code) = true
      ∧ (¬ (trimmedState ⟨["X"], 3, none⟩ [courseX] 4 1).2 < 2 →
          ("Proj1" ∈ (Recommendation.mk ["X"] 3 none).courses → 1 = 7)
            ∧ ("Proj2" ∈ (Recommendation.mk ["X"] 3 none).courses → 1 = 8)) := by
  apply enforce_catalog_and_gating ⟨["X"], 3, none⟩ [courseX] 2 4 1 ⟨["X"], 3, none⟩
  norm_num +decide [enforce_credit_limits, finalCourses, paddedState, trimmedState,
    strippedState, stripCodes, sumCredits, courseMap, sortByCreditsDesc, sortByPadKey,
    sortBy, insertSortedBy, trimPass, trimGo, padLe, padKey, isMandatoryType, padGo,
    courseX, List.filter, List.filterMap, List.foldl, List.erase]

theorem stripCodes_eq_self {codes : List String} {avail : List Course} {sem : ℕ}
    (hin : ∀ code ∈ codes, (courseMap avail code).isSome = true)
    (hp1 : "Proj1" ∈ codes → sem = 7) (hp2 : "Proj2" ∈ codes → sem = 8) :
    stripCodes codes avail sem = codes := by
  simp only [stripCodes]
  have f1 : codes.filter (fun c => !(c == "Proj1" && sem != 7)) = codes := by
    apply List.filter_eq_self.mpr
    intro c hc
    by_cases he : c = "Proj1"
    · subst he
      have h7 := hp1 hc
      simp [h7]
    · simp [he]
  rw [f1]
  have f2 : codes.filter (fun c => !(c == "Proj2" && sem != 8)) = codes := by
    apply List.filter_eq_self.mpr
    intro c hc
    by_cases he : c = "Proj2"
    · subst he
      have h8 := hp2 hc
      simp [h8]
    · simp [he]
  rw [f2]
  apply List.filter_eq_self.mpr
  intro c hc
  exact hin c hc

/-- C4: enforcing an already-valid recommendation (all codes in the catalog,
no project course gated to another semester, stated total equal to the
catalog sum and already inside the bounds) returns it with the same course
list and total, only the breakdown lists being filtered to present codes;
and that filtering is the identity when every breakdown code is already in
the course list. -/
theorem enforce_idempotent_on_valid (rec : Recommendation) (avail : List Course)
    (mn mx : ℚ) (sem : ℕ)
    (hin : ∀ code ∈ rec.courses, (courseMap avail code).isSome = true)
    (hp1 : "Proj1" ∈ rec.courses → sem = 7)
    (hp2 : "Proj2" ∈ rec.courses → sem = 8)
    (htot : rec.total_credits = sumCatalogCredits avail rec.courses)
    (hmin : mn ≤ rec.total_credits) (hmax : rec.total_credits ≤ mx) :
    enforce_credit_limits rec avail mn mx sem
        = some { rec with breakdown := rec.breakdown.map (syncBreakdown rec.courses) }
      ∧ (∀ b, rec.breakdown = some b →
          b.mandatory ⊆ rec.courses → b.electives ⊆ rec.courses →
          (∀ l, b.project_courses = some l → l ⊆ rec.courses) →
          syncBreakdown rec.courses b = b) := by
  have hstrip : stripCodes rec.courses avail sem = rec.courses :=
    stripCodes_eq_self hin hp1 hp2
  have hst1snd : (strippedState rec avail sem).2 = rec.total_credits := by
    have : (strippedState rec avail sem).2
        = sumCredits ((stripCodes rec.courses avail sem).filterMap (courseMap avail)) := rfl
    rw [this, hstrip, sumCredits_filterMap hin, htot]
  have hnotgt : ¬ (strippedState rec avail sem).2 > mx := by
    rw [hst1snd]
    exact not_lt.mpr hmax
  have htrim : trimmedState rec avail mx sem = strippedState rec avail sem :=
    trimmedState_eq_of_not_gt hnotgt
  have hnotlt : ¬ (trimmedState rec avail mx sem).2 < mn := by
    rw [htrim, hst1snd]
    exact not_lt.mpr hmin
  have hpad : paddedState rec avail mn mx sem = strippedState rec avail sem := by
    rw [paddedState_eq_of_not_lt hnotlt, htrim]
  have hfinal : finalCourses rec avail mn mx sem = rec.courses := by
    unfold finalCourses
    rw [if_neg hnotlt, if_neg hnotgt, hstrip]
  constructor
  · simp only [enforce_credit_limits]
    rw [if_pos ⟨by rw [hpad, hst1snd]; exact hmin, by rw [hpad, hst1snd]; exact hmax⟩]
    rw [hfinal]
    have : (paddedState rec avail mn mx sem).2 = rec.total_credits := by
      rw [hpad, hst1snd]
    rw [this]
  · intro b hb hm he hp
    rcases b with ⟨bm, be, bp⟩
    simp only [syncBreakdown]
    have h1 : bm.filter (fun c => rec.courses.contains c) = bm := by
      apply List.filter_eq_self.mpr
      intro c hc
      exact List.elem_iff.mpr (hm hc)
    have h2 : be.filter (fun c => rec.courses.contains c) = be := by
      apply List.filter_eq_self.mpr
      intro c hc
      exact List.elem_iff.mpr (he hc)
    rw [h1, h2]
    cases bp with
    | none => rfl
    | some l =>
      have h3 : l.filter (fun c => rec.courses.contains c) = l := by
        apply List.filter_eq_self.mpr
        intro c hc
        exact List.elem_iff.mpr (hp l rfl hc)
      rw [show (Option.map (fun l => List.filter (fun c => rec.courses.contains c) l) (some l))
          = some (List.filter (fun c => rec.courses.contains c) l) from rfl, h3]

/-- Witness for C4: a valid recommendation with a breakdown whose codes are
all present comes back exactly as it went in. -/
theorem enforce_idempotent_witness :
    enforce_credit_limits ⟨["X"], 3, some ⟨["X"], [], none⟩⟩ [courseX] 2 4 1
      = some ⟨["X"], 3, some ⟨["X"], [], none⟩⟩ := by
  have h := enforce_idempotent_on_valid ⟨["X"], 3, some ⟨["X"], [], none⟩⟩ [courseX] 2 4 1
    (by decide) (by decide) (by decide)
    (by norm_num +decide [sumCatalogCredits, catalogCredit, courseMap, courseX,
      List.foldl])
    (by norm_num) (by norm_num)
  rw [h.1]
  rfl

/-- C6 amended: when the proposal's course list has no duplicates and the
catalog codes are unique, a surviving recommendation's course list has no
duplicates. (As stated over all proposals, C6 fails: the enforcer never
deduplicates, see the counterexample.) -/
theorem enforce_nodup_of_nodup (rec : Recommendation) (avail : List Course)
    (mn mx : ℚ) (sem : ℕ) (R : Recommendation)
    (hrc : rec.courses.Nodup) (hnd : (avail.map Course.course_code).Nodup)
    (h : enforce_credit_limits rec avail mn mx sem = some R) :
    R.courses.Nodup := by
  rcases enforce_eq_some h with ⟨-, hR⟩
  subst hR
  show (finalCourses rec avail mn mx sem).Nodup
  rw [finalCourses_eq_padded_map]
  have hst1 : ((strippedState rec avail sem).1.map Course.course_code).Nodup := by
    rw [strippedState_map_code]
    exact stripCodes_nodup hrc
  have hst2 : ((trimmedState rec avail mx sem).1.map Course.course_code).Nodup :=
    List.Nodup.sublist ((trimmedState_fst_sublist rec avail mx sem).map Course.course_code) hst1
  by_cases hp : (trimmedState rec avail mx sem).2 < mn
  · rw [paddedState_eq_of_lt hp]
    apply padGo_fst_nodup_codes _ _ _ _ _ hst2
    · have hperm := (sortBy_perm padLe (avail.filter fun c =>
        !(((trimmedState rec avail mx sem).1.map Course.course_code).contains
          c.course_code))).map Course.course_code
      apply hperm.nodup_iff.mpr
      exact List.Nodup.sublist ((List.filter_sublist avail).map Course.course_code) hnd
    · intro c hc
      have hcf := (sortBy_perm padLe _).mem_iff.mp hc
      have hpred := (List.mem_filter.mp hcf).2
      rw [Bool.not_eq_true'] at hpred
      intro hmem
      have hc2 : (((trimmedState rec avail mx sem).1.map Course.course_code).contains
          c.course_code) = true := List.elem_iff.mpr hmem
      rw [hpred] at hc2
      cases hc2
  · rw [paddedState_eq_of_not_lt hp]
    exact hst2

/-- Witness for the amended C6: the surviving course list of a duplicate-free
proposal over a unique-code catalog has no duplicates. -/
theorem enforce_nodup_witness : (Recommendation.mk ["X"] 3 none).courses.Nodup := by
  apply enforce_nodup_of_nodup ⟨["X"], 3, none⟩ [courseX] 2 4 1 ⟨["X"], 3, none⟩
  · decide
  · decide
  · norm_num +decide [enforce_credit_limits, finalCourses, paddedState, trimmedState,
      strippedState, stripCodes, sumCredits, courseMap, sortByCreditsDesc, sortByPadKey,
      sortBy, insertSortedBy, trimPass, trimGo, padLe, padKey, isMandatoryType, padGo,
      courseX, List.filter, List.filterMap, List.foldl, List.erase]

/-- C9 amended: the analyzer reports remaining mandatory credits
max(0, 120 - ALL already-passed credits - the selection's mandatory-type
not-already-passed credits); with remaining semesters positive it flags
at-risk (feasible false) exactly when the per-semester need exceeds
max_credits, tight (feasible true) exactly when that need exceeds
0.8 x max_credits but not max_credits, and no warning otherwise; with zero
remaining semesters, feasible holds iff the remaining credits are exactly 0.
(As stated, C9 fails: the passed-credit term is not restricted to
mandatory-type courses, see the counterexample.) -/
theorem feasibility_branches (mn mx : ℚ) (student : StudentProfile) (sel : List Course) :
    (analyze_graduation_feasibility mn mx student sel).remaining_mandatory_credits
        = remainingMandatoryCredits student sel
      ∧ ((0 : ℤ) < 8 - (student.current_semester : ℤ) →
          (((analyze_graduation_feasibility mn mx student sel).feasible = false
              ∧ (analyze_graduation_feasibility mn mx student sel).warnings
                = [GradWarning.atRisk])
            ↔ remainingMandatoryCredits student sel
                / ((8 - (student.current_semester : ℤ) : ℤ) : ℚ) > mx)
          ∧ (((analyze_graduation_feasibility mn mx student sel).feasible = true
              ∧ (analyze_graduation_feasibility mn mx student sel).warnings
                = [GradWarning.tight])
            ↔ (¬ remainingMandatoryCredits student sel
                  / ((8 - (student.current_semester : ℤ) : ℤ) : ℚ) > mx
                ∧ remainingMandatoryCredits student sel
                  / ((8 - (student.current_semester : ℤ) : ℤ) : ℚ) > 0.8 * mx))
          ∧ (((analyze_graduation_feasibility mn mx student sel).feasible = true
              ∧ (analyze_graduation_feasibility mn mx student sel).warnings = [])
            ↔ (¬ remainingMandatoryCredits student sel
                  / ((8 - (student.current_semester : ℤ) : ℤ) : ℚ) > mx
                ∧ ¬ remainingMandatoryCredits student sel
                  / ((8 - (student.current_semester : ℤ) : ℤ) : ℚ) > 0.8 * mx)))
      ∧ (8 - (student.current_semester : ℤ) = 0 →
          ((analyze_graduation_feasibility mn mx student sel).feasible = true
            ↔ remainingMandatoryCredits student sel = 0)) := by
  simp only [analyze_graduation_feasibility]
  split_ifs with h1 h2 h3 h4
  · refine ⟨rfl, fun _ => ?_, fun hz => False.elim (by omega)⟩
    push_cast at h2
    simp
    exact ⟨h2, fun hle => absurd h2 (not_lt.mpr hle), fun hle => absurd h2 (not_lt.mpr hle)⟩
  · refine ⟨rfl, fun _ => ?_, fun hz => False.elim (by omega)⟩
    push_cast at h2 h3
    simp
    exact ⟨not_lt.mp h2, ⟨not_lt.mp h2, h3⟩, fun _ => h3⟩
  · refine ⟨rfl, fun _ => ?_, fun hz => False.elim (by omega)⟩
    push_cast at h2 h3
    simp
    exact ⟨not_lt.mp h2, fun _ => not_lt.mp h3, not_lt.mp h2, not_lt.mp h3⟩
  · exact ⟨rfl, fun hpos => absurd hpos h1, fun _ => by simp [h4]⟩
  · exact ⟨rfl, fun hpos => absurd hpos h1, fun _ => by simp [h4]⟩

/-- Witness for the amended C9: a fresh semester-1 student under a
10-credit cap needs 120/7 credits per semester, which trips the at-risk
branch with feasible false. -/
theorem feasibility_branches_witness :
    (analyze_graduation_feasibility 8 10 studentFresh []).feasible = false
      ∧ (analyze_graduation_feasibility 8 10 studentFresh []).warnings
        = [GradWarning.atRisk] := by
  have h := feasibility_branches 8 10 studentFresh []
  have hpos : (0 : ℤ) < 8 - ((studentFresh.current_semester : ℕ) : ℤ) := by decide
  apply ((h.2.1 hpos).1).mpr
  norm_num +decide [remainingMandatoryCredits, passedCreditsSum, selectedMandatoryCredits,
    allCourseResults, getPassedCourses, isMandatoryType, studentFresh,
    List.filter, List.flatten]

end EdwRec
